import Mathlib

/-!
Verification development for the Salary-In-Hand calculator (`src/app.py`).

The program consists of two pure functions — `indian_number_format`
(`app.py` lines 18–61) and `calculate_tax` (lines 64–98) — and an inline
deduction pipeline (lines 148–184) that derives a salary breakdown from a
gross salary and an employer-NPS percentage, plus a display table with
yearly and monthly columns (lines 214–242).

Embedding choices: monetary amounts are modelled as exact rationals `ℚ`
(the spec's "decimal" values; spec §9 endorses exact decimal arithmetic
as the faithful idealisation of the source's floats).  Python's
`round(x, 2)` rounds half to even; it is modelled by `rhe` (round half
to even) applied at the cents scale.  Strings are modelled through their
character lists.
-/

/-- Round half to even of a rational to an integer: the rounding used by
Python's builtin `round`. -/
def rhe (q : ℚ) : ℤ :=
  if Int.fract q < 1/2 then ⌊q⌋
  else if 1/2 < Int.fract q then ⌊q⌋ + 1
  else if ⌊q⌋ % 2 = 0 then ⌊q⌋ else ⌊q⌋ + 1

/-- The last `n` characters of a list: Python's `s[-n:]` (for `n > 0`). -/
def takeLastN (n : ℕ) (l : List Char) : List Char := l.drop (l.length - n)

/-- All but the last `n` characters of a list: Python's `s[:-n]` (for `n > 0`). -/
def dropLastN (n : ℕ) (l : List Char) : List Char := l.take (l.length - n)

/-- The grouping loop of `indian_number_format` (`app.py` lines 53–55):
while the remaining integer part is nonempty, move its last two digits,
followed by a comma, to the front of the formatted text. -/
def groupLoop (integer_part formatted : List Char) : List Char :=
  if integer_part = [] then formatted
  else groupLoop (dropLastN 2 integer_part) (takeLastN 2 integer_part ++ ',' :: formatted)
  termination_by integer_part.length
  decreasing_by
    simp only [dropLastN, List.length_take]
    have h2 : 0 < integer_part.length := List.length_pos.mpr (by assumption)
    omega

/-- Indian-style comma insertion into the digits of the integer part
(`app.py` lines 44–55): 3 or fewer digits stay as they are, otherwise the
rightmost 3 digits are split off and the rest is grouped in twos. -/
def formatInt (integer_part : List Char) : List Char :=
  if integer_part.length ≤ 3 then integer_part
  else groupLoop (dropLastN 3 integer_part) (takeLastN 3 integer_part)

/-- `abs(round(amount, 2))` expressed in cents (`app.py` line 38): the
absolute value of the half-even rounding of `100 * amount`. -/
def cents (amount : ℚ) : ℕ := (rhe (amount * 100)).natAbs

/-- The unsigned formatted text (`app.py` lines 41–58) of a nonnegative
amount given as a whole number of cents: the `f"{amount:.2f}"` split
yields integer part `n / 100` and the two zero-padded fractional digits
of `n % 100`; the integer part is grouped by `formatInt`. -/
def coreChars (n : ℕ) : List Char :=
  formatInt (Nat.toDigits 10 (n / 100)) ++
    '.' :: [Nat.digitChar (n % 100 / 10), Nat.digitChar (n % 100 % 10)]

/-- `indian_number_format` (`app.py` lines 18–61): remember the sign of
the original amount, round the absolute value to cents, render it, and
re-apply a leading minus sign if the original amount was negative. -/
def indian_number_format (amount : ℚ) : String :=
  if amount < 0 then "-" ++ String.mk (coreChars (cents amount))
  else String.mk (coreChars (cents amount))

/-- The digits of the integer part of the rounded absolute amount, as
displayed by `indian_number_format`. -/
def intDigitsOf (q : ℚ) : List Char := Nat.toDigits 10 (cents q / 100)

/-- The tax brackets of `calculate_tax` (`app.py` lines 80–87), ordered
from highest to lowest limit, each with its marginal rate. -/
def brackets : List (ℚ × ℚ) :=
  [(2400000, 0.30), (2000000, 0.25), (1600000, 0.20),
   (1200000, 0.15), (800000, 0.10), (400000, 0.05)]

/-- One iteration of the bracket loop (`app.py` lines 93–96) on the state
(remaining taxable amount, accumulated tax): if the remaining amount
exceeds the bracket limit, tax the surplus at the bracket rate and clamp
the remaining amount to the limit. -/
def taxStep (s : ℚ × ℚ) (b : ℚ × ℚ) : ℚ × ℚ :=
  if b.1 < s.1 then (b.1, s.2 + (s.1 - b.1) * b.2) else s

/-- `calculate_tax` (`app.py` lines 64–98): fold the bracket loop over
the brackets starting from (taxable amount, 0) and return the
accumulated tax. -/
def calculate_tax (taxable_amount : ℚ) : ℚ :=
  (brackets.foldl taxStep (taxable_amount, 0)).2

/-- The derived salary components (spec §3, `SalaryBreakdown`). -/
structure SalaryBreakdown where
  variablePay : ℚ
  ctc : ℚ
  basicSalary : ℚ
  employerNps : ℚ
  employerPf : ℚ
  employeePf : ℚ
  gratuity : ℚ
  professionalTax : ℚ
  taxableAmount : ℚ
  taxAmount : ℚ
  cessAmount : ℚ
  netSalary : ℚ

/-- The form-submit computation block (`app.py` lines 148–184), the
spec's `SalaryPipeline.compute`: derives every component from the fixed
gross salary and the employer NPS percentage. -/
def computeBreakdown (inp_fixed_salary inp_nps : ℚ) : SalaryBreakdown :=
  let variable_pay := inp_fixed_salary * 0.14
  let ctc_amount := inp_fixed_salary + variable_pay
  let basic_salary := inp_fixed_salary * 0.40
  let employer_nps_contribution := (inp_nps / 100) * basic_salary
  let employer_pf_contribution := 0.12 * basic_salary
  let employee_pf_contribution := 0.12 * basic_salary
  let gratuity_contribution := 0.048 * basic_salary
  let professional_tax : ℚ := 300 * 12
  let taxable_amount := inp_fixed_salary - employer_nps_contribution -
    employer_pf_contribution - gratuity_contribution - 75000
  let tax_amount := calculate_tax taxable_amount
  let cess_amount := 0.04 * tax_amount
  let in_hand_salary := inp_fixed_salary - employer_nps_contribution -
    employer_pf_contribution - gratuity_contribution - employee_pf_contribution -
    professional_tax - tax_amount - cess_amount
  ⟨variable_pay, ctc_amount, basic_salary, employer_nps_contribution,
   employer_pf_contribution, employee_pf_contribution, gratuity_contribution,
   professional_tax, taxable_amount, tax_amount, cess_amount, in_hand_salary⟩

/-- The raw yearly figures of the "In-Hand Salary" table, in display
order (`app.py` lines 219–225). -/
def inHandYearlyValues (g p : ℚ) : List ℚ :=
  let b := computeBreakdown g p
  [b.ctc, g, b.taxableAmount, b.taxAmount, b.cessAmount,
   b.employerNps + b.employerPf + b.employeePf, b.netSalary]

/-- The "In-Hand Salary" table as displayed (`app.py` lines 226–241):
each row holds the yearly figure and the monthly figure, each passed
separately through `indian_number_format`, with the monthly argument
written as the yearly amount divided by 12, exactly as in the source. -/
def inHandTable (g p : ℚ) : List (String × String) :=
  let b := computeBreakdown g p
  [(indian_number_format b.ctc, indian_number_format (b.ctc / 12)),
   (indian_number_format g, indian_number_format (g / 12)),
   (indian_number_format b.taxableAmount, indian_number_format (b.taxableAmount / 12)),
   (indian_number_format b.taxAmount, indian_number_format (b.taxAmount / 12)),
   (indian_number_format b.cessAmount, indian_number_format (b.cessAmount / 12)),
   (indian_number_format (b.employerNps + b.employerPf + b.employeePf),
    indian_number_format ((b.employerNps + b.employerPf + b.employeePf) / 12)),
   (indian_number_format b.netSalary, indian_number_format (b.netSalary / 12))]

/-- Comma-separated concatenation of a list of digit groups, used to
state the Indian grouping law. -/
def joinComma : List (List Char) → List Char
  | [] => []
  | [g] => g
  | g :: g2 :: gs => g ++ ',' :: joinComma (g2 :: gs)

/-- The grouping law exactly as the spec states it: the output is the
comma-separated groups followed by a dot and two fractional digits, the
groups concatenate to the digits of the integer part, the rightmost
group has 3 digits when there are more than 3 digits (otherwise there is
a single comma-free group), and every other group has exactly 2 digits. -/
def IndianGroupingStrictAt (q : ℚ) : Prop :=
  ∃ gs last d1 d2,
    (indian_number_format q).data = joinComma (gs ++ [last]) ++ ['.', d1, d2] ∧
    (gs ++ [last]).flatten = intDigitsOf q ∧
    (∀ g ∈ gs, g.length = 2) ∧
    ((intDigitsOf q).length ≤ 3 → gs = []) ∧
    (3 < (intDigitsOf q).length → last.length = 3 ∧ gs ≠ [])

/-- The grouping law as the code actually realises it: as in
`IndianGroupingStrictAt`, except that the leftmost group may have 1 or 2
digits (every group strictly between the leftmost and the rightmost has
exactly 2). -/
def IndianGroupingAt (q : ℚ) : Prop :=
  ∃ gs last d1 d2,
    (indian_number_format q).data = joinComma (gs ++ [last]) ++ ['.', d1, d2] ∧
    (gs ++ [last]).flatten = intDigitsOf q ∧
    (∀ g ∈ gs, 1 ≤ g.length ∧ g.length ≤ 2) ∧
    (∀ g ∈ gs.tail, g.length = 2) ∧
    ((intDigitsOf q).length ≤ 3 → gs = []) ∧
    (3 < (intDigitsOf q).length → last.length = 3 ∧ gs ≠ [])

/-! ## Helper lemmas about the rounding function -/

theorem rhe_intCast (m : ℤ) : rhe (m : ℚ) = m := by
  simp [rhe, Int.fract_intCast]

theorem rhe_neg (q : ℚ) : rhe (-q) = -rhe q := by
  by_cases h0 : Int.fract q = 0
  · have h1 : Int.fract (-q) = 0 := by rw [Int.fract_neg_eq_zero]; exact h0
    have hq : q = (⌊q⌋ : ℚ) := by
      have := Int.fract_add_floor q
      rw [h0] at this; linarith
    have h2 : ⌊-q⌋ = -⌊q⌋ := by
      conv_lhs => rw [hq, ← Int.cast_neg, Int.floor_intCast]
    simp [rhe, h0, h1, h2]
  · have hfr : Int.fract (-q) = 1 - Int.fract q := Int.fract_neg h0
    have hpos : 0 < Int.fract q := lt_of_le_of_ne (Int.fract_nonneg q) (Ne.symm h0)
    have hlt : Int.fract q < 1 := Int.fract_lt_one q
    have hself : q - (⌊q⌋ : ℚ) = Int.fract q := Int.self_sub_floor q
    have hfl : ⌊-q⌋ = -⌊q⌋ - 1 := by
      rw [Int.floor_eq_iff]
      constructor
      · push_cast
        have := Int.lt_floor_add_one q
        linarith
      · push_cast
        linarith
    unfold rhe
    rw [hfr, hfl]
    rcases lt_trichotomy (Int.fract q) (1/2) with h | h | h
    · rw [if_pos h, if_neg (show ¬ (1 - Int.fract q < 1/2) by linarith),
         if_pos (show (1:ℚ)/2 < 1 - Int.fract q by linarith)]
      ring
    · rw [if_neg (show ¬ (1 - Int.fract q < 1/2) by intro hcon; rw [h] at hcon; norm_num at hcon),
         if_neg (show ¬ ((1:ℚ)/2 < 1 - Int.fract q) by intro hcon; rw [h] at hcon; norm_num at hcon),
         if_neg (show ¬ (Int.fract q < 1/2) by intro hcon; rw [h] at hcon; norm_num at hcon),
         if_neg (show ¬ ((1:ℚ)/2 < Int.fract q) by intro hcon; rw [h] at hcon; norm_num at hcon)]
      by_cases hev : ⌊q⌋ % 2 = 0
      · rw [if_neg (show ¬ ((-⌊q⌋ - 1) % 2 = 0) by omega), if_pos hev]
        ring
      · rw [if_pos (show (-⌊q⌋ - 1) % 2 = 0 by omega), if_neg hev]
        ring
    · rw [if_neg (show ¬ (Int.fract q < 1/2) by linarith),
         if_pos (show (1:ℚ) - Int.fract q < 1/2 by linarith),
         if_pos (show (1:ℚ)/2 < Int.fract q by linarith)]
      ring

theorem rhe_small_neg (q : ℚ) (h1 : -1/2 < q) (h2 : q < 0) : rhe q = 0 := by
  have hfl : ⌊q⌋ = -1 := by
    rw [Int.floor_eq_iff]
    constructor <;> push_cast <;> linarith
  have hfr : Int.fract q = q + 1 := by
    rw [← Int.self_sub_floor, hfl]; push_cast; ring
  unfold rhe
  rw [hfr, hfl, if_neg (by linarith), if_pos (by linarith)]
  ring

/-! ## Helper lemmas about the tax fold -/

theorem foldl_taxStep_acc_le (bs : List (ℚ × ℚ)) (hr : ∀ b ∈ bs, 0 ≤ b.2) :
    ∀ s : ℚ × ℚ, s.2 ≤ (bs.foldl taxStep s).2 := by
  induction bs with
  | nil => intro s; simp
  | cons b t ih =>
    intro s
    have hb : 0 ≤ b.2 := hr b (by simp)
    have ht : ∀ x ∈ t, 0 ≤ x.2 := fun x hx => hr x (by simp [hx])
    have step : s.2 ≤ (taxStep s b).2 := by
      unfold taxStep
      split
      · simp only
        nlinarith [mul_nonneg (le_of_lt (by linarith : (0:ℚ) < s.1 - b.1)) hb]
      · exact le_refl _
    calc s.2 ≤ (taxStep s b).2 := step
      _ ≤ ((t.foldl taxStep (taxStep s b))).2 := ih ht _

theorem taxStep_mono_lipschitz (rmax : ℚ) (b : ℚ × ℚ)
    (hb0 : 0 ≤ b.2) (hbm : b.2 ≤ rmax) (s t : ℚ × ℚ)
    (h1 : s.1 ≤ t.1) (h2 : s.2 ≤ t.2) :
    (taxStep s b).1 ≤ (taxStep t b).1 ∧ (taxStep s b).2 ≤ (taxStep t b).2 ∧
    (taxStep t b).2 - (taxStep s b).2 + rmax * ((taxStep t b).1 - (taxStep s b).1) ≤
      t.2 - s.2 + rmax * (t.1 - s.1) := by
  simp only [taxStep]
  split_ifs with hs ht ht
  · refine ⟨le_refl _, ?_, ?_⟩ <;> simp <;> nlinarith
  · exfalso; linarith
  · refine ⟨?_, ?_, ?_⟩ <;> simp <;> nlinarith
  · refine ⟨h1, h2, ?_⟩; nlinarith

theorem foldl_taxStep_mono_lipschitz (rmax : ℚ) (bs : List (ℚ × ℚ))
    (hr : ∀ b ∈ bs, 0 ≤ b.2 ∧ b.2 ≤ rmax) :
    ∀ s t : ℚ × ℚ, s.1 ≤ t.1 → s.2 ≤ t.2 →
    (bs.foldl taxStep s).1 ≤ (bs.foldl taxStep t).1 ∧
    (bs.foldl taxStep s).2 ≤ (bs.foldl taxStep t).2 ∧
    (bs.foldl taxStep t).2 - (bs.foldl taxStep s).2 +
      rmax * ((bs.foldl taxStep t).1 - (bs.foldl taxStep s).1) ≤
      t.2 - s.2 + rmax * (t.1 - s.1) := by
  induction bs with
  | nil => intro s t h1 h2; exact ⟨h1, h2, le_refl _⟩
  | cons b tl ih =>
    intro s t h1 h2
    have hb := hr b (by simp)
    have htl : ∀ x ∈ tl, 0 ≤ x.2 ∧ x.2 ≤ rmax := fun x hx => hr x (by simp [hx])
    have step := taxStep_mono_lipschitz rmax b hb.1 hb.2 s t h1 h2
    have rest := ih htl (taxStep s b) (taxStep t b) step.1 step.2.1
    refine ⟨rest.1, rest.2.1, ?_⟩
    simp only [List.foldl_cons]
    linarith [rest.2.2, step.2.2]

theorem brackets_rates_bounds : ∀ x ∈ brackets, 0 ≤ x.2 ∧ x.2 ≤ 0.30 := by
  intro x hx
  simp [brackets] at hx
  rcases hx with h | h | h | h | h | h <;> rw [h] <;> norm_num

theorem calculate_tax_mono (a b : ℚ) (hab : a ≤ b) :
    calculate_tax a ≤ calculate_tax b := by
  have h := foldl_taxStep_mono_lipschitz 0.30 brackets brackets_rates_bounds
    (a, 0) (b, 0) hab (le_refl 0)
  exact h.2.1

theorem calculate_tax_lipschitz (a b : ℚ) (hab : a ≤ b) :
    calculate_tax b - calculate_tax a ≤ 0.30 * (b - a) := by
  have h := foldl_taxStep_mono_lipschitz 0.30 brackets brackets_rates_bounds
    (a, 0) (b, 0) hab (le_refl 0)
  have h1 := h.1
  have h3 := h.2.2
  unfold calculate_tax
  nlinarith

theorem calculate_tax_nonneg (x : ℚ) : 0 ≤ calculate_tax x := by
  have hr : ∀ b ∈ brackets, 0 ≤ b.2 := fun b hb => (brackets_rates_bounds b hb).1
  exact foldl_taxStep_acc_le brackets hr (x, 0)

theorem calculate_tax_zero (x : ℚ) (hx : x ≤ 400000) : calculate_tax x = 0 := by
  have h : ∀ L r : ℚ, 400000 ≤ L → taxStep (x, 0) (L, r) = (x, 0) := by
    intro L r hL
    unfold taxStep
    rw [if_neg (show ¬ ((L, r).1 < (x, (0:ℚ)).1) by simp only; linarith)]
  simp only [calculate_tax, brackets, List.foldl]
  rw [h _ _ (by norm_num), h _ _ (by norm_num), h _ _ (by norm_num),
     h _ _ (by norm_num), h _ _ (by norm_num), h _ _ (by norm_num)]

/-! ## Claims C1–C4 -/

/-- Claim C1 (counterexample): on input grossSalary = 1,800,000 and
npsPercent = 14, the pipeline's tax amount is 105,486, not the 45,486
asserted by the claim's chain, and the CESS amount accordingly is not
1,819.44: the bracket loop keeps adding the lower brackets' surpluses
(40,000 and 20,000) after the 15% bracket. -/
theorem c1_pipeline_example_cex :
    (computeBreakdown 1800000 14).taxAmount = 105486 ∧
    ¬ ((computeBreakdown 1800000 14).taxAmount = 45486 ∧
       (computeBreakdown 1800000 14).cessAmount = 1819.44) := by
  have h : (computeBreakdown 1800000 14).taxAmount = 105486 := by
    show calculate_tax (1800000 - (14 / 100) * (1800000 * 0.40) -
      0.12 * (1800000 * 0.40) - 0.048 * (1800000 * 0.40) - 75000) = 105486
    norm_num [calculate_tax, brackets, taxStep]
  refine ⟨h, ?_⟩
  intro hcon
  rw [h] at hcon
  norm_num at hcon

/-- Claim C1 (amended): for the input grossSalary = 1,800,000 and
npsPercent = 14.00, the pipeline produces exactly basicSalary = 720,000,
employerNps = 100,800, employerPf = employeePf = 86,400, gratuity =
34,560, professionalTax = 3,600, taxableAmount = 1,503,240, taxAmount =
calculate_tax(1,503,240) = 105,486 (the 15% bracket contributes 45,486,
the 10% bracket 40,000 and the 5% bracket 20,000), cessAmount = 4,219.44
and netSalary = 1,378,534.56, matching formula 12 to the cent. -/
theorem c1_pipeline_example_amended :
    (computeBreakdown 1800000 14).basicSalary = 720000 ∧
    (computeBreakdown 1800000 14).employerNps = 100800 ∧
    (computeBreakdown 1800000 14).employerPf = 86400 ∧
    (computeBreakdown 1800000 14).employeePf = 86400 ∧
    (computeBreakdown 1800000 14).gratuity = 34560 ∧
    (computeBreakdown 1800000 14).professionalTax = 3600 ∧
    (computeBreakdown 1800000 14).taxableAmount = 1503240 ∧
    (computeBreakdown 1800000 14).taxAmount = calculate_tax 1503240 ∧
    (computeBreakdown 1800000 14).taxAmount = 105486 ∧
    (computeBreakdown 1800000 14).cessAmount = 4219.44 ∧
    (computeBreakdown 1800000 14).netSalary = 1378534.56 := by
  have htaxable : (1800000 : ℚ) - (14 / 100) * (1800000 * 0.40) -
      0.12 * (1800000 * 0.40) - 0.048 * (1800000 * 0.40) - 75000 = 1503240 := by
    norm_num
  have htax : calculate_tax 1503240 = 105486 := by
    norm_num [calculate_tax, brackets, taxStep]
  refine ⟨by norm_num [computeBreakdown], by norm_num [computeBreakdown],
    by norm_num [computeBreakdown], by norm_num [computeBreakdown],
    by norm_num [computeBreakdown], by norm_num [computeBreakdown],
    by norm_num [computeBreakdown], ?_, ?_, ?_, ?_⟩
  · show calculate_tax _ = calculate_tax 1503240
    rw [htaxable]
  · show calculate_tax _ = 105486
    rw [htaxable, htax]
  · show (0.04 : ℚ) * calculate_tax _ = 4219.44
    rw [htaxable, htax]; norm_num
  · show (1800000 : ℚ) - _ - _ - _ - _ - _ - calculate_tax _ - 0.04 * calculate_tax _ = _
    rw [htaxable, htax]; norm_num

/-- Claim C2: for every valid SalaryInput (grossSalary ≥ 0, npsPercent
in [0,14]) the pipeline derives its fields by exactly the twelve fixed
formulas of spec §4.3. -/
theorem c2_pipeline_formulas (g p : ℚ) (hg : 0 ≤ g) (hp0 : 0 ≤ p) (hp1 : p ≤ 14) :
    (computeBreakdown g p).variablePay = g * 0.14 ∧
    (computeBreakdown g p).ctc = g + (computeBreakdown g p).variablePay ∧
    (computeBreakdown g p).basicSalary = g * 0.40 ∧
    (computeBreakdown g p).employerNps = (p / 100) * (computeBreakdown g p).basicSalary ∧
    (computeBreakdown g p).employerPf = 0.12 * (computeBreakdown g p).basicSalary ∧
    (computeBreakdown g p).employeePf = 0.12 * (computeBreakdown g p).basicSalary ∧
    (computeBreakdown g p).gratuity = 0.048 * (computeBreakdown g p).basicSalary ∧
    (computeBreakdown g p).professionalTax = 300 * 12 ∧
    (computeBreakdown g p).taxableAmount = g - (computeBreakdown g p).employerNps -
      (computeBreakdown g p).employerPf - (computeBreakdown g p).gratuity - 75000 ∧
    (computeBreakdown g p).taxAmount = calculate_tax (computeBreakdown g p).taxableAmount ∧
    (computeBreakdown g p).cessAmount = 0.04 * (computeBreakdown g p).taxAmount ∧
    (computeBreakdown g p).netSalary = g - (computeBreakdown g p).employerNps -
      (computeBreakdown g p).employerPf - (computeBreakdown g p).gratuity -
      (computeBreakdown g p).employeePf - (computeBreakdown g p).professionalTax -
      (computeBreakdown g p).taxAmount - (computeBreakdown g p).cessAmount :=
  ⟨rfl, rfl, rfl, rfl, rfl, rfl, rfl, rfl, rfl, rfl, rfl, rfl⟩

theorem c2_pipeline_formulas_witness :
    (computeBreakdown 1800000 14).variablePay = 1800000 * 0.14 :=
  (c2_pipeline_formulas 1800000 14 (by norm_num) (by norm_num) (by norm_num)).1

/-- Claim C3: `calculate_tax` returns exactly 0 for every taxable amount
at most 400,000 (negative amounts included), is nonnegative for every
nonnegative taxable amount, and returns exactly 0.05 · 1 at 400,001. -/
theorem c3_tax_boundary :
    (∀ x : ℚ, x ≤ 400000 → calculate_tax x = 0) ∧
    (∀ x : ℚ, 0 ≤ x → 0 ≤ calculate_tax x) ∧
    calculate_tax 400001 = 0.05 * 1 := by
  refine ⟨fun x hx => calculate_tax_zero x hx, fun x _ => calculate_tax_nonneg x, ?_⟩
  norm_num [calculate_tax, brackets, taxStep]

theorem c3_tax_boundary_witness :
    calculate_tax (-5) = 0 ∧ 0 ≤ calculate_tax 1000000 :=
  ⟨c3_tax_boundary.1 (-5) (by norm_num), c3_tax_boundary.2.1 1000000 (by norm_num)⟩

/-- Claim C4: `calculate_tax` is monotone: for all nonnegative `a` and
`b` with `a ≤ b`, the tax at `a` is at most the tax at `b`. -/
theorem c4_tax_monotone (a b : ℚ) (ha : 0 ≤ a) (hb : 0 ≤ b) (hab : a ≤ b) :
    calculate_tax a ≤ calculate_tax b :=
  calculate_tax_mono a b hab

theorem c4_tax_monotone_witness :
    calculate_tax 100000 ≤ calculate_tax 500000 :=
  c4_tax_monotone 100000 500000 (by norm_num) (by norm_num) (by norm_num)

/-! ## Helper lemmas about the grouping loop -/

theorem dropLastN_append_takeLastN (n : ℕ) (l : List Char) :
    dropLastN n l ++ takeLastN n l = l :=
  List.take_append_drop _ l

theorem length_takeLastN (n : ℕ) (l : List Char) (h : n ≤ l.length) :
    (takeLastN n l).length = n := by
  simp only [takeLastN, List.length_drop]
  omega

theorem length_dropLastN (n : ℕ) (l : List Char) :
    (dropLastN n l).length = l.length - n := by
  simp only [dropLastN, List.length_take]
  omega

theorem groupLoop_nil (acc : List Char) : groupLoop [] acc = acc := by
  rw [groupLoop, if_pos rfl]

theorem groupLoop_ne_nil (ds acc : List Char) (h : ds ≠ []) :
    groupLoop ds acc = groupLoop (dropLastN 2 ds) (takeLastN 2 ds ++ ',' :: acc) := by
  rw [groupLoop, if_neg h]

theorem dropLastN_eq_nil_iff (ds : List Char) :
    dropLastN 2 ds = [] ↔ ds.length ≤ 2 := by
  rw [← List.length_eq_zero, length_dropLastN]
  omega

theorem groupLoop_ex : ∀ (n : ℕ) (ds acc : List Char), ds.length ≤ n → ds ≠ [] →
    ∃ gs : List (List Char), gs ≠ [] ∧
      groupLoop ds acc = (gs.map (fun g => g ++ [','])).flatten ++ acc ∧
      gs.flatten = ds ∧ (∀ g ∈ gs, 1 ≤ g.length ∧ g.length ≤ 2) ∧
      (∀ g ∈ gs.tail, g.length = 2) := by
  intro n
  induction n with
  | zero =>
    intro ds acc h hne
    exact absurd (List.length_eq_zero.1 (Nat.le_zero.1 h)) hne
  | succ m ih =>
    intro ds acc hlen hne
    have hpos : 0 < ds.length := List.length_pos.mpr hne
    rw [groupLoop_ne_nil ds acc hne]
    by_cases h2 : dropLastN 2 ds = []
    · have hds2 : ds.length ≤ 2 := (dropLastN_eq_nil_iff ds).1 h2
      have ht : takeLastN 2 ds = ds := by
        simp only [takeLastN]
        have : ds.length - 2 = 0 := by omega
        rw [this, List.drop_zero]
      rw [h2, groupLoop_nil, ht]
      refine ⟨[ds], by simp, by simp, by simp, ?_, by simp⟩
      intro g hg
      simp only [List.mem_singleton] at hg
      subst hg
      omega
    · have hds3 : 3 ≤ ds.length := by
        by_contra hcon
        exact h2 ((dropLastN_eq_nil_iff ds).2 (by omega))
      have hlt : (dropLastN 2 ds).length ≤ m := by
        rw [length_dropLastN]; omega
      obtain ⟨gs, hne2, heq, hflat, hbound, htail⟩ :=
        ih (dropLastN 2 ds) (takeLastN 2 ds ++ ',' :: acc) hlt h2
      have ht2 : (takeLastN 2 ds).length = 2 := length_takeLastN 2 ds (by omega)
      refine ⟨gs ++ [takeLastN 2 ds], by simp, ?_, ?_, ?_, ?_⟩
      · rw [heq]
        simp [List.append_assoc]
      · rw [List.flatten_append]
        simp only [List.flatten_cons, List.flatten_nil, List.append_nil]
        rw [hflat]
        exact dropLastN_append_takeLastN 2 ds
      · intro g hg
        rcases List.mem_append.1 hg with h | h
        · exact hbound g h
        · simp only [List.mem_singleton] at h
          subst h
          omega
      · cases gs with
        | nil => exact absurd rfl hne2
        | cons a t =>
          intro g hg
          simp only [List.cons_append, List.tail_cons] at hg
          rcases List.mem_append.1 hg with h | h
          · exact htail g (by simpa using h)
          · simp only [List.mem_singleton] at h
            subst h
            exact ht2

theorem joinComma_append_single (gs : List (List Char)) (last : List Char) :
    joinComma (gs ++ [last]) = (gs.map (fun g => g ++ [','])).flatten ++ last := by
  induction gs with
  | nil => simp [joinComma]
  | cons a t ih =>
    cases t with
    | nil => simp [joinComma]
    | cons b t2 =>
      simp only [List.cons_append, joinComma, List.map_cons, List.flatten_cons,
        List.append_eq] at ih ⊢
      rw [ih]
      simp [List.append_assoc]

theorem formatInt_grouping (ds : List Char) :
    ∃ gs last, formatInt ds = joinComma (gs ++ [last]) ∧
      (gs ++ [last]).flatten = ds ∧
      (∀ g ∈ gs, 1 ≤ g.length ∧ g.length ≤ 2) ∧
      (∀ g ∈ gs.tail, g.length = 2) ∧
      (ds.length ≤ 3 → gs = []) ∧
      (3 < ds.length → last.length = 3 ∧ gs ≠ []) := by
  by_cases h3 : ds.length ≤ 3
  · refine ⟨[], ds, ?_, by simp, by simp, by simp, fun _ => rfl, fun hcon => by omega⟩
    rw [formatInt, if_pos h3]
    simp [joinComma]
  · push_neg at h3
    have hne : dropLastN 3 ds ≠ [] := by
      rw [← List.length_pos, length_dropLastN]
      omega
    obtain ⟨gs, hne2, heq, hflat, hbound, htail⟩ :=
      groupLoop_ex (dropLastN 3 ds).length (dropLastN 3 ds) (takeLastN 3 ds)
        (le_refl _) hne
    refine ⟨gs, takeLastN 3 ds, ?_, ?_, hbound, htail, fun hcon => by omega, ?_⟩
    · rw [formatInt, if_neg (by omega), heq, joinComma_append_single]
    · rw [List.flatten_append]
      simp only [List.flatten_cons, List.flatten_nil, List.append_nil]
      rw [hflat]
      exact dropLastN_append_takeLastN 3 ds
    · intro _
      exact ⟨length_takeLastN 3 ds (by omega), hne2⟩

theorem flatten_length_all_two (gs : List (List Char))
    (h : ∀ g ∈ gs, g.length = 2) : gs.flatten.length = 2 * gs.length := by
  induction gs with
  | nil => simp
  | cons a t ih =>
    simp only [List.flatten_cons, List.length_append, List.length_cons]
    rw [h a (by simp), ih (fun g hg => h g (by simp [hg]))]
    ring

/-! ## Claims C5–C10 -/

/-- Claim C5 (counterexample): the formatter's output for 1234 is
"1,234.00", whose single non-rightmost group "1" has 1 digit, not 2; no
decomposition into a rightmost 3-digit group plus 2-digit groups exists
for a 4-digit integer part, so the claim's grouping law as stated fails
at amount 1234. -/
theorem c5_formatter_grouping_cex :
    indian_number_format 1234 = "1,234.00" ∧ ¬ IndianGroupingStrictAt 1234 := by
  have hm : (1234 : ℚ) * 100 = ((123400 : ℤ) : ℚ) := by norm_num
  have hc : cents 1234 = 123400 := by rw [cents, hm, rhe_intCast]; rfl
  have hdig : intDigitsOf 1234 = ['1', '2', '3', '4'] := by
    rw [intDigitsOf, hc]
    rfl
  constructor
  · rw [indian_number_format, if_neg (by norm_num), hc]
    have hd : Nat.toDigits 10 (123400 / 100) = ['1', '2', '3', '4'] := rfl
    simp [coreChars, hd, formatInt, groupLoop, dropLastN, takeLastN]
    rfl
  · rintro ⟨gs, last, d1, d2, _, hflat, hstrict, _, hgt3⟩
    rw [hdig] at hflat hgt3
    obtain ⟨hlast3, _⟩ := hgt3 (by decide)
    have h4 : (gs ++ [last]).flatten.length = 4 := by rw [hflat]; rfl
    rw [List.flatten_append] at h4
    simp only [List.flatten_cons, List.flatten_nil, List.append_nil,
      List.length_append] at h4
    rw [flatten_length_all_two gs hstrict, hlast3] at h4
    omega

/-- Claim C5 (amended): for every nonnegative amount the formatter output
is the comma-separated Indian grouping of the integer-part digits
followed by exactly 2 fractional digits — rightmost group of 3 digits
when there are more than 3 digits, no comma for 3 or fewer digits, every
group strictly left of the rightmost has 2 digits except that the
leftmost group may have 1 or 2 digits; and the four concrete examples
hold. -/
theorem c5_formatter_grouping_amended :
    (∀ q : ℚ, 0 ≤ q → IndianGroupingAt q) ∧
    indian_number_format 1234567.89 = "12,34,567.89" ∧
    indian_number_format 999.5 = "999.50" ∧
    indian_number_format 100000 = "1,00,000.00" ∧
    indian_number_format 123456789 = "12,34,56,789.00" := by
  refine ⟨?_, ?_, ?_, ?_, ?_⟩
  · intro q hq
    have hneg : ¬ (q < 0) := not_lt.2 hq
    obtain ⟨gs, last, heq, hflat, hbound, htail, hle3, hgt3⟩ :=
      formatInt_grouping (intDigitsOf q)
    refine ⟨gs, last, Nat.digitChar (cents q % 100 / 10),
      Nat.digitChar (cents q % 100 % 10), ?_, hflat, hbound, htail, hle3, hgt3⟩
    have hdata : (indian_number_format q).data = formatInt (intDigitsOf q) ++
        ['.', Nat.digitChar (cents q % 100 / 10), Nat.digitChar (cents q % 100 % 10)] := by
      rw [indian_number_format, if_neg hneg]
      rfl
    rw [hdata, heq]
  · have hm : (1234567.89 : ℚ) * 100 = ((123456789 : ℤ) : ℚ) := by norm_num
    have hc : cents 1234567.89 = 123456789 := by rw [cents, hm, rhe_intCast]; rfl
    rw [indian_number_format, if_neg (by norm_num), hc]
    have hd : Nat.toDigits 10 (123456789 / 100) = ['1', '2', '3', '4', '5', '6', '7'] := rfl
    simp [coreChars, hd, formatInt, groupLoop, dropLastN, takeLastN]
    rfl
  · have hm : (999.5 : ℚ) * 100 = ((99950 : ℤ) : ℚ) := by norm_num
    have hc : cents 999.5 = 99950 := by rw [cents, hm, rhe_intCast]; rfl
    rw [indian_number_format, if_neg (by norm_num), hc]
    rfl
  · have hm : (100000 : ℚ) * 100 = ((10000000 : ℤ) : ℚ) := by norm_num
    have hc : cents 100000 = 10000000 := by rw [cents, hm, rhe_intCast]; rfl
    rw [indian_number_format, if_neg (by norm_num), hc]
    have hd : Nat.toDigits 10 (10000000 / 100) = ['1', '0', '0', '0', '0', '0'] := rfl
    simp [coreChars, hd, formatInt, groupLoop, dropLastN, takeLastN]
    rfl
  · have hm : (123456789 : ℚ) * 100 = ((12345678900 : ℤ) : ℚ) := by norm_num
    have hc : cents 123456789 = 12345678900 := by rw [cents, hm, rhe_intCast]; rfl
    rw [indian_number_format, if_neg (by norm_num), hc]
    have hd : Nat.toDigits 10 (12345678900 / 100) =
      ['1', '2', '3', '4', '5', '6', '7', '8', '9'] := rfl
    simp [coreChars, hd, formatInt, groupLoop, dropLastN, takeLastN]
    rfl

theorem c5_formatter_grouping_witness : IndianGroupingAt 0 :=
  c5_formatter_grouping_amended.1 0 (le_refl 0)

/-- Claim C6: sign law of the formatter: for every positive amount,
formatting the negation prepends a minus sign to the formatting of the
amount, and zero formats as "0.00" with no sign. -/
theorem c6_formatter_sign_law :
    (∀ x : ℚ, 0 < x → indian_number_format (-x) = "-" ++ indian_number_format x) ∧
    indian_number_format 0 = "0.00" := by
  constructor
  · intro x hx
    have h1 : (-x) < 0 := by linarith
    have h2 : ¬ (x < 0) := by linarith
    have hc : cents (-x) = cents x := by
      simp only [cents, neg_mul, rhe_neg, Int.natAbs_neg]
    rw [indian_number_format, indian_number_format, if_pos h1, if_neg h2, hc]
  · have hm : (0 : ℚ) * 100 = ((0 : ℤ) : ℚ) := by norm_num
    have hc : cents 0 = 0 := by rw [cents, hm, rhe_intCast]; rfl
    rw [indian_number_format, if_neg (by norm_num), hc]
    rfl

theorem c6_formatter_sign_law_witness :
    indian_number_format (-(1234.5 : ℚ)) = "-" ++ indian_number_format 1234.5 :=
  c6_formatter_sign_law.1 1234.5 (by norm_num)

/-- Claim C7: every monthly figure of the In-Hand Salary table is the
yearly figure divided by 12, each formatted independently through
`indian_number_format`; and the independent roundings do differ by
rounding noise (at 100 per year, the rounded monthly cents times 12 miss
the rounded yearly cents). -/
theorem c7_monthly_is_yearly_div_12 :
    (∀ g p : ℚ, inHandTable g p = (inHandYearlyValues g p).map
      (fun y => (indian_number_format y, indian_number_format (y / 12)))) ∧
    cents ((100 : ℚ) / 12) * 12 ≠ cents 100 := by
  constructor
  · intro g p
    rfl
  · have hm : (100 : ℚ) / 12 * 100 = 2500 / 3 := by norm_num
    have hfl : ⌊(2500 / 3 : ℚ)⌋ = 833 := by
      rw [Int.floor_eq_iff]
      constructor <;> norm_num
    have hfr : Int.fract (2500 / 3 : ℚ) = 1 / 3 := by
      rw [← Int.self_sub_floor, hfl]
      norm_num
    have hr : rhe (2500 / 3 : ℚ) = 833 := by
      unfold rhe
      rw [hfr, hfl, if_pos (by norm_num)]
    have h1 : cents ((100 : ℚ) / 12) = 833 := by rw [cents, hm, hr]; rfl
    have hm2 : (100 : ℚ) * 100 = ((10000 : ℤ) : ℚ) := by norm_num
    have h2 : cents (100 : ℚ) = 10000 := by rw [cents, hm2, rhe_intCast]; rfl
    rw [h1, h2]
    norm_num

/-- Claim C8: every operation terminates on every valid input: the
bracket loop visits a fixed list of 6 brackets, the grouping loop's
remaining integer part strictly shrinks at each iteration, and the loop
satisfies its defining recurrence (its recursion is well founded on the
length measure). -/
theorem c8_termination :
    brackets.length = 6 ∧
    (∀ ds : List Char, ds ≠ [] → (dropLastN 2 ds).length < ds.length) ∧
    (∀ ds acc : List Char, groupLoop ds acc =
      if ds = [] then acc
      else groupLoop (dropLastN 2 ds) (takeLastN 2 ds ++ ',' :: acc)) := by
  refine ⟨rfl, ?_, ?_⟩
  · intro ds hne
    rw [length_dropLastN]
    have := List.length_pos.mpr hne
    omega
  · intro ds acc
    by_cases h : ds = []
    · rw [if_pos h, h, groupLoop_nil]
    · rw [if_neg h, groupLoop_ne_nil ds acc h]

theorem c8_termination_witness :
    (dropLastN 2 ['1', '2', '3']).length < (['1', '2', '3'] : List Char).length :=
  c8_termination.2.1 ['1', '2', '3'] (by decide)

/-- Claim C9: for every negative amount whose absolute value rounds to 0
at 2 decimal places (strictly between −0.005 and 0), the formatter
returns the signed-zero string "-0.00", because the minus sign is
decided from the original amount before rounding. -/
theorem c9_signed_zero (q : ℚ) (h1 : -0.005 < q) (h2 : q < 0) :
    indian_number_format q = "-0.00" := by
  have hr : rhe (q * 100) = 0 :=
    rhe_small_neg (q * 100) (by nlinarith) (by nlinarith)
  rw [indian_number_format, if_pos h2, cents, hr]
  rfl

theorem c9_signed_zero_witness : indian_number_format (-(1 / 1000) : ℚ) = "-0.00" :=
  c9_signed_zero (-(1 / 1000)) (by norm_num) (by norm_num)

/-- Claim C10: for a fixed nonnegative gross salary and NPS percentages
p1 ≤ p2 in [0, 14], the net salary at p2 is at most the net salary at
p1: raising the employer NPS percentage never increases in-hand pay,
since the tax-plus-cess saving per unit of NPS (at most 0.30 · 1.04) is
below 1. -/
theorem c10_nps_monotone (g p1 p2 : ℚ) (hg : 0 ≤ g) (hp0 : 0 ≤ p1)
    (h12 : p1 ≤ p2) (hp2 : p2 ≤ 14) :
    (computeBreakdown g p2).netSalary ≤ (computeBreakdown g p1).netSalary := by
  have key : ∀ gg pp : ℚ, (computeBreakdown gg pp).netSalary =
      gg - (pp / 100) * (gg * 0.40) - 0.12 * (gg * 0.40) - 0.048 * (gg * 0.40) -
      0.12 * (gg * 0.40) - 300 * 12 -
      calculate_tax (gg - (pp / 100) * (gg * 0.40) - 0.12 * (gg * 0.40) -
        0.048 * (gg * 0.40) - 75000) -
      0.04 * calculate_tax (gg - (pp / 100) * (gg * 0.40) - 0.12 * (gg * 0.40) -
        0.048 * (gg * 0.40) - 75000) := fun gg pp => rfl
  have hD : 0 ≤ (p2 - p1) * (g * 0.40) / 100 :=
    div_nonneg (mul_nonneg (by linarith) (mul_nonneg hg (by norm_num))) (by norm_num)
  have hA : (p2 / 100) * (g * 0.40) - (p1 / 100) * (g * 0.40) =
      (p2 - p1) * (g * 0.40) / 100 := by ring
  have hble : (g - (p2 / 100) * (g * 0.40) - 0.12 * (g * 0.40) - 0.048 * (g * 0.40) - 75000) ≤
      (g - (p1 / 100) * (g * 0.40) - 0.12 * (g * 0.40) - 0.048 * (g * 0.40) - 75000) := by
    linarith
  have hmono := calculate_tax_mono _ _ hble
  have hlip := calculate_tax_lipschitz _ _ hble
  rw [key g p1, key g p2]
  linarith

theorem c10_nps_monotone_witness :
    (computeBreakdown 1800000 14).netSalary ≤ (computeBreakdown 1800000 0).netSalary :=
  c10_nps_monotone 1800000 0 14 (by norm_num) (by norm_num) (by norm_num) (by norm_num)
